import Mathlib

/-! Verification development for scripts/generate_lenses.py: a shallow
embedding of the script over `List Char`, with theorems checking the
specification's claims.  Python strings are modelled as `List Char`; JSON
numbers are modelled as arbitrary-precision integers (the script's payloads
involve no fractional numerals, so fractional and exponent numerals, and the
non-standard NaN/Infinity constants, are outside the model); the filesystem
and the network are modelled by explicit state passing. -/

namespace GenLenses

/-- Characters treated as whitespace by Python `str.strip` (the ASCII set;
exotic unicode space characters, which the script's data never contains,
are outside the model). -/
def isPyWs (c : Char) : Bool :=
  c == ' ' || c == '\t' || c == '\n' || c == '\r' || c == '\x0b' || c == '\x0c'

/-- Characters of the regex class `[ \t]` used by `textwrap.dedent`. -/
def isSpTab (c : Char) : Bool := c == ' ' || c == '\t'

/-- Python `str.strip()`: drop leading and trailing whitespace. -/
def pyStrip (l : List Char) : List Char :=
  ((l.dropWhile isPyWs).reverse.dropWhile isPyWs).reverse

/-- JSON values as produced by `json.loads` (numbers modelled as integers). -/
inductive Json where
  | null
  | bool (b : Bool)
  | num (n : Int)
  | str (s : List Char)
  | arr (xs : List Json)
  | obj (kvs : List (List Char × Json))

/-- Decimal digit character. -/
def digitCh (d : Nat) : Char := Char.ofNat (48 + d)

/-- Helper for `natStr`; the fuel always exceeds the argument. -/
def natStrAux : Nat → Nat → List Char
  | 0, _ => []
  | fuel + 1, n =>
    if n < 10 then [digitCh n] else natStrAux fuel (n / 10) ++ [digitCh (n % 10)]

/-- Decimal rendering of a natural number, as Python prints it. -/
def natStr (n : Nat) : List Char := natStrAux (n + 1) n

/-- Python `str` of an integer. -/
def intStr (n : Int) : List Char :=
  if n < 0 then '-' :: natStr n.natAbs else natStr n.natAbs

/-- Lowercase hexadecimal digit character. -/
def hexDigit (n : Nat) : Char := if n < 10 then digitCh n else Char.ofNat (87 + n)

/-- Two lowercase hex digits of a byte. -/
def hexByte (n : Nat) : List Char := [hexDigit (n / 16 % 16), hexDigit (n % 16)]

/-- Escaping of one character inside a Python string repr quoted by `q`
(the common cases; exotic non-printables are not needed by the script). -/
def reprEsc (q : Char) (c : Char) : List Char :=
  if c = '\\' then ['\\', '\\']
  else if c = q then ['\\', q]
  else if c = '\n' then ['\\', 'n']
  else if c = '\r' then ['\\', 'r']
  else if c = '\t' then ['\\', 't']
  else if c.toNat < 32 || c.toNat == 127 then '\\' :: 'x' :: hexByte c.toNat
  else [c]

/-- Python `repr` of a string: single-quoted, except double-quoted when the
text contains a single quote and no double quote. -/
def strRepr (s : List Char) : List Char :=
  let q : Char := if s.contains '\x27' && !(s.contains '"') then '"' else '\x27'
  q :: ((s.map (reprEsc q)).flatten ++ [q])

mutual

/-- Python `repr` of a decoded-JSON value. -/
def pyRepr : Json → List Char
  | .null => "None".toList
  | .bool true => "True".toList
  | .bool false => "False".toList
  | .num n => intStr n
  | .str s => strRepr s
  | .arr xs => '[' :: (seqRepr xs ++ [']'])
  | .obj kvs => '\x7b' :: (dictRepr kvs ++ ['\x7d'])

/-- Comma-separated `repr` of the elements of a list. -/
def seqRepr : List Json → List Char
  | [] => []
  | [x] => pyRepr x
  | x :: y :: xs => pyRepr x ++ (", ".toList ++ seqRepr (y :: xs))

/-- Comma-separated `repr` of the key/value pairs of a dict. -/
def dictRepr : List (List Char × Json) → List Char
  | [] => []
  | [kv] => strRepr kv.1 ++ (": ".toList ++ pyRepr kv.2)
  | kv :: kv2 :: kvs =>
    strRepr kv.1 ++ (": ".toList ++ pyRepr kv.2 ++ (", ".toList ++ dictRepr (kv2 :: kvs)))

end

/-- Python `str()` of a decoded-JSON value (source line 139 applies it to
`payload.get(...)`); for every non-string value it agrees with `repr`. -/
def pyStr : Json → List Char
  | .str s => s
  | v => pyRepr v

/-- Python truthiness of a decoded-JSON value. -/
def pyTruthy : Json → Bool
  | .null => false
  | .bool b => b
  | .num n => n != 0
  | .str s => !s.isEmpty
  | .arr xs => !xs.isEmpty
  | .obj kvs => !kvs.isEmpty

/-- Python iteration: lists yield their elements, strings yield their
characters as one-character strings, dicts yield their keys; the remaining
values are not iterable (`TypeError`). -/
def pyIter : Json → Option (List Json)
  | .arr xs => some xs
  | .str s => some (s.map (fun c => Json.str [c]))
  | .obj kvs => some (kvs.map (fun kv => Json.str kv.1))
  | _ => none

/-- Python dict lookup; parsed objects carry each key once. -/
def objGet (kvs : List (List Char × Json)) (k : List Char) : Option Json :=
  match kvs.find? (fun kv => kv.1 == k) with
  | some kv => some kv.2
  | none => none

/-- Characters the JSON scanner skips between tokens. -/
def isJsonWs (c : Char) : Bool := c == ' ' || c == '\t' || c == '\n' || c == '\r'

/-- Skip JSON inter-token whitespace. -/
def skipJWs (s : List Char) : List Char := s.dropWhile isJsonWs

/-- Value of a hexadecimal digit character. -/
def hexVal (c : Char) : Option Nat :=
  if '0' ≤ c ∧ c ≤ '9' then some (c.toNat - 48)
  else if 'a' ≤ c ∧ c ≤ 'f' then some (c.toNat - 87)
  else if 'A' ≤ c ∧ c ≤ 'F' then some (c.toNat - 55)
  else none

/-- JSON backslash escapes other than `\u`. -/
def escCh : Char → Option Char
  | '"' => some '"'
  | '\\' => some '\\'
  | '/' => some '/'
  | 'b' => some '\x08'
  | 'f' => some '\x0c'
  | 'n' => some '\n'
  | 'r' => some '\r'
  | 't' => some '\t'
  | _ => none

/-- Parse the body of a JSON string after the opening quote, as Python's
strict scanner: unescaped control characters are rejected; `\u` escapes are
four hex digits (surrogate pairs are not modelled). -/
def parseStr : List Char → Option (List Char × List Char)
  | [] => none
  | c :: rest =>
    if c = '"' then some ([], rest)
    else if c = '\\' then
      match rest with
      | [] => none
      | e :: r2 =>
        if e = 'u' then
          match r2 with
          | h1 :: h2 :: h3 :: h4 :: r6 =>
            match hexVal h1, hexVal h2, hexVal h3, hexVal h4 with
            | some a, some b, some c3, some d =>
              let n := ((a * 16 + b) * 16 + c3) * 16 + d
              if n < 0xd800 ∨ (0xe000 ≤ n ∧ n < 0x110000) then
                match parseStr r6 with
                | some p => some (Char.ofNat n :: p.1, p.2)
                | none => none
              else none
            | _, _, _, _ => none
          | _ => none
        else
          match escCh e with
          | some ec =>
            match parseStr r2 with
            | some p => some (ec :: p.1, p.2)
            | none => none
          | none => none
    else if c.toNat < 32 then none
    else
      match parseStr rest with
      | some p => some (c :: p.1, p.2)
      | none => none

/-- Decimal-digit character test. -/
def isDigitCh (c : Char) : Bool := '0' ≤ c && c ≤ '9'

/-- Accumulate decimal digits into a natural number. -/
def digitsToNat (acc : Nat) : List Char → Nat
  | [] => acc
  | c :: cs => digitsToNat (acc * 10 + (c.toNat - 48)) cs

/-- Does the input continue an exponent (`[+-]?digits`)? -/
def expTail : List Char → Bool
  | '+' :: d :: _ => isDigitCh d
  | '-' :: d :: _ => isDigitCh d
  | d :: _ => isDigitCh d
  | [] => false

/-- Does the input continue the numeral as a float (fraction or exponent)? -/
def isFloatTail : List Char → Bool
  | '.' :: d :: _ => isDigitCh d
  | 'e' :: t => expTail t
  | 'E' :: t => expTail t
  | _ => false

/-- Parse a JSON numeral (`-?(0|[1-9]digits)`); fractional or exponent
numerals denote Python floats, which are outside this model. -/
def parseNum (s : List Char) : Option (Json × List Char) :=
  let p := match s with
    | '-' :: t => (true, t)
    | _ => (false, s)
  match p.2 with
  | [] => none
  | c :: t =>
    if !isDigitCh c then none
    else
      let q := if c = '0' then ([c], t) else (c :: t.takeWhile isDigitCh, t.dropWhile isDigitCh)
      if isFloatTail q.2 then none
      else
        let v : Int := Int.ofNat (digitsToNat 0 q.1)
        some (.num (if p.1 then -v else v), q.2)

/-- Insert a key/value pair as Python `dict` building does: a repeated key
keeps its original position but takes the latest value. -/
def objInsert (acc : List (List Char × Json)) (k : List Char) (v : Json) :
    List (List Char × Json) :=
  if acc.any (fun kv => kv.1 == k) then
    acc.map (fun kv => if kv.1 == k then (kv.1, v) else kv)
  else acc ++ [(k, v)]

mutual

/-- One JSON value by recursive descent.  The fuel only bounds recursion
depth; the top-level call supplies more fuel than the input length, which is
therefore never exhausted. -/
def parseVal : Nat → List Char → Option (Json × List Char)
  | 0, _ => none
  | fuel + 1, s =>
    match s with
    | [] => none
    | c :: rest =>
      if c = '"' then
        match parseStr rest with
        | some p => some (.str p.1, p.2)
        | none => none
      else if c = '\x7b' then parseObjBody fuel (skipJWs rest) true []
      else if c = '[' then parseArrBody fuel (skipJWs rest) true []
      else if c = 'n' then
        match rest with
        | 'u' :: 'l' :: 'l' :: r => some (.null, r)
        | _ => none
      else if c = 't' then
        match rest with
        | 'r' :: 'u' :: 'e' :: r => some (.bool true, r)
        | _ => none
      else if c = 'f' then
        match rest with
        | 'a' :: 'l' :: 's' :: 'e' :: r => some (.bool false, r)
        | _ => none
      else parseNum s

/-- Members of an object after the opening brace (whitespace already
skipped); only when `first` may the object close immediately. -/
def parseObjBody (fuel : Nat) (s : List Char) (first : Bool)
    (acc : List (List Char × Json)) : Option (Json × List Char) :=
  match fuel with
  | 0 => none
  | fuel + 1 =>
    match s with
    | '\x7d' :: r => if first then some (.obj acc, r) else none
    | '"' :: r =>
      match parseStr r with
      | none => none
      | some kp =>
        match skipJWs kp.2 with
        | ':' :: r2 =>
          match parseVal fuel (skipJWs r2) with
          | none => none
          | some vp =>
            match skipJWs vp.2 with
            | ',' :: r3 => parseObjBody fuel (skipJWs r3) false (objInsert acc kp.1 vp.1)
            | '\x7d' :: r3 => some (.obj (objInsert acc kp.1 vp.1), r3)
            | _ => none
        | _ => none
    | _ => none

/-- Elements of an array after the opening bracket (whitespace already
skipped); only when `first` may the array close immediately. -/
def parseArrBody (fuel : Nat) (s : List Char) (first : Bool) (acc : List Json) :
    Option (Json × List Char) :=
  match fuel with
  | 0 => none
  | fuel + 1 =>
    match s with
    | ']' :: r => if first then some (.arr acc.reverse, r) else none
    | _ =>
      match parseVal fuel s with
      | none => none
      | some vp =>
        match skipJWs vp.2 with
        | ',' :: r2 => parseArrBody fuel (skipJWs r2) false (vp.1 :: acc)
        | ']' :: r2 => some (.arr (vp.1 :: acc).reverse, r2)
        | _ => none

end

/-- Python `json.loads`: one JSON document; trailing non-whitespace is an
error ("Extra data"). -/
def jsonLoads (s : List Char) : Option Json :=
  match parseVal (s.length + 1) (skipJWs s) with
  | some vp => if (skipJWs vp.2).isEmpty then some vp.1 else none
  | none => none

/-- Prepend a character to the first line of a line list. -/
def consHead (c : Char) : List (List Char) → List (List Char)
  | [] => [[c]]
  | l :: ls => (c :: l) :: ls

/-- Split on newline characters (Python `str.split` with a one-character
separator; the result is never empty). -/
def splitNl : List Char → List (List Char)
  | [] => [[]]
  | c :: cs =>
    if c = '\n' then [] :: splitNl cs else consHead c (splitNl cs)

/-- Merge the last line of the first list with the first line of the
second: how the line lists of two concatenated texts combine. -/
def glueHead (l : List Char) : List (List Char) → List (List Char)
  | [] => [l]
  | b0 :: bs => (l ++ b0) :: bs

/-- Line list of a concatenation, from the two line lists. -/
def glue : List (List Char) → List (List Char) → List (List Char)
  | [], b => b
  | [a0], b => glueHead a0 b
  | a0 :: a1 :: as2, b => a0 :: glue (a1 :: as2) b

/-- Join lines with newline characters (inverse of `splitNl`). -/
def joinNl : List (List Char) → List Char
  | [] => []
  | [l] => l
  | l :: l2 :: ls => l ++ '\n' :: joinNl (l2 :: ls)

/-- Longest common starting run of two character lists. -/
def comPre : List Char → List Char → List Char
  | a1 :: t1, b1 :: t2 => if a1 = b1 then a1 :: comPre t1 t2 else []
  | _, _ => []

/-- A line consisting solely of spaces and tabs (regex `[ \t]+` anchored to
the whole line). -/
def wsOnlyLine (l : List Char) : Bool := !l.isEmpty && l.all isSpTab

/-- The leading space/tab run of a line that has some other character
(the lines the margin regex of `textwrap.dedent` considers). -/
def indentOf (l : List Char) : Option (List Char) :=
  if l.any (fun c => !isSpTab c) then some (l.takeWhile isSpTab) else none

/-- The common leading-whitespace margin of the lines. -/
def marginOf (ls : List (List Char)) : List Char :=
  match ls.filterMap indentOf with
  | [] => []
  | i :: is2 => is2.foldl comPre i

/-- Removal of the common margin from every line (the final step of
`textwrap.dedent`). -/
def dedentLines (ls : List (List Char)) : List Char :=
  joinNl (ls.map (fun l => if (marginOf ls).isPrefixOf l then l.drop (marginOf ls).length else l))

/-- Model of `textwrap.dedent`: space/tab-only lines are emptied, then the
common leading margin is removed from the start of every line. -/
def dedent (t : List Char) : List Char :=
  dedentLines ((splitNl t).map (fun l => if wsOnlyLine l then [] else l))

/-- The f-string template before the interpolated resume text (source lines
116-121: a leading newline, then lines indented by 12 spaces). -/
def promptPre : List Char :=
  "\n            System:\n            You generate concise JSON summaries for professional résumés. Do not include commentary outside JSON.\n\n            Resume:\n            ".toList

/-- The template between the resume text and the instruction text. -/
def promptMid : List Char := "\n\n            Instruction:\n            ".toList

/-- The template after the instruction text: the literal JSON format example
(source lines 126-135), ending with the 12 spaces before the closing
triple quote. -/
def promptPost : List Char :=
  "\n\n            Format:\n            \x7b\n              \"summary\": \"<80-120 word paragraph>\",\n              \"bullets\": [\n                \"bullet one\",\n                \"bullet two\",\n                \"bullet three\"\n              ]\n            \x7d\n            ".toList

/-- The prompt built at source lines 115-136: `dedent(f-string).strip()`. -/
def buildPrompt (resume instr : List Char) : List Char :=
  pyStrip (dedent (promptPre ++ resume ++ promptMid ++ instr ++ promptPost))

/-- One entry of the configuration table. -/
structure LensSpec where
  title : List Char
  instruction : List Char
  recommended_terms : List (List Char)
  source_notes : List (List Char)

/-- The ai-privacy entry (source lines 27-35). -/
def aiPrivacyLens : List Char × LensSpec :=
  ("ai-privacy".toList,
    LensSpec.mk "AI + privacy".toList
      "Summarise how George Larson applies AI while protecting privacy and regulated data. Focus on applied systems, leadership signals, and measurable outcomes. Return bullet points that show real projects, not generic traits.".toList
      ["privacy".toList, "AI".toList, "OCR".toList, "security".toList, "tabletop".toList]
      [])

/-- The manufacturing-ops entry (source lines 36-43). -/
def manufacturingLens : List Char × LensSpec :=
  ("manufacturing-ops".toList,
    LensSpec.mk "Manufacturing operations".toList
      "Summarise George Larson\x27s experience with manufacturing, firmware, and production systems. Highlight uptime improvements, hardware labs, and PLC or robotics work.".toList
      ["manufacturing".toList, "TiVo".toList, "PLC".toList, "conveyors".toList, "uptime".toList]
      [])

/-- The technology-leadership entry (source lines 44-51). -/
def leadershipLens : List Char × LensSpec :=
  ("technology-leadership".toList,
    LensSpec.mk "Technology leadership".toList
      "Summarise George Larson\x27s leadership style. Cover roadmaps, mixed teams, communication, and how he balances hands-on work with management.".toList
      ["roadmap".toList, "team".toList, "Agile".toList, "mentorship".toList, "leadership".toList]
      [])

/-- The configuration table (source lines 26-52); no entry carries
`source_notes`, which is read with default `[]` at line 148. -/
def LENSES : List (List Char × LensSpec) :=
  [aiPrivacyLens, manufacturingLens, leadershipLens]

/-- Failure taxonomy: each constructor models one uncaught Python
exception that terminates the run. -/
inductive Err where
  | fileNotFound (path : List Char)
  | missingCredential
  | httpError (code : Nat) (message : List Char)
  | urlError (reason : List Char)
  | jsonDecode (payload : List Char)
  | unexpectedPayload (parsed : Json)
  | unhandledStructure (parsed : Json)
  | noJson (text : List Char)
  | attrError
  | typeError

/-- The generated_text field name. -/
def gtKey : List Char := "generated_text".toList

/-- The summary field name. -/
def summaryKey : List Char := "summary".toList

/-- The bullets field name. -/
def bulletsKey : List Char := "bullets".toList

/-- Response-shape dispatch of `call_hugging_face` (source lines 92-100):
a non-empty list takes the first element's `generated_text` (raising on a
falsy value, and an AttributeError when the element is not a dict); a dict
returns its stringified `generated_text`; everything else raises with the
parsed payload. -/
def handleResponse (parsed : Json) : Except Err Json :=
  match parsed with
  | .arr (x0 :: rest) =>
    match x0 with
    | .obj kvs =>
      let generated := (objGet kvs gtKey).getD (.str [])
      if pyTruthy generated then .ok generated
      else .error (.unexpectedPayload (.arr (x0 :: rest)))
    | _ => .error .attrError
  | .obj kvs =>
    match objGet kvs gtKey with
    | some v => .ok (.str (pyStr v))
    | none => .error (.unhandledStructure (.obj kvs))
  | other => .error (.unhandledStructure other)

/-- The request the client sends (the serialized body is determined by the
prompt; the fixed generation parameters carry no information). -/
structure Request where
  url : List Char
  authToken : List Char
  prompt : List Char

/-- Outcome of one HTTPS POST. -/
inductive HttpOutcome where
  | httpError (code : Nat) (body : List Char)
  | urlError (reason : List Char)
  | success (body : List Char)

/-- The process environment, as queried by `os.environ.get`. -/
def Env : Type := List Char → Option (List Char)

/-- The hard-coded default model identifier (source line 23). -/
def HF_DEFAULT_MODEL : List Char := "mistralai/Mistral-7B-Instruct-v0.3".toList

/-- Credential resolution (source line 62): Python `or` falls through on an
unset or empty primary variable. -/
def tokenOf (env : Env) : Option (List Char) :=
  match env "HF_API_TOKEN".toList with
  | some t => if t.isEmpty then env "HF_TOKEN".toList else some t
  | none => env "HF_TOKEN".toList

/-- Model of `call_hugging_face` (source lines 61-100); the network is a
function from the request to its outcome. -/
def call_hugging_face (env : Env) (http : Request → HttpOutcome) (prompt : List Char) :
    Except Err Json :=
  match tokenOf env with
  | none => .error .missingCredential
  | some t =>
    if t.isEmpty then .error .missingCredential
    else
      let model := (env "HF_MODEL".toList).getD HF_DEFAULT_MODEL
      let req := Request.mk ("https://api-inference.huggingface.co/models/".toList ++ model) t prompt
      match http req with
      | .httpError code msg => .error (.httpError code msg)
      | .urlError r => .error (.urlError r)
      | .success body =>
        match jsonLoads body with
        | none => .error (.jsonDecode body)
        | some parsed => handleResponse parsed

/-- Python `str.find` for one character: first index, else -1. -/
def pyFind (t : List Char) (c : Char) : Int :=
  match t.findIdx? (fun x => x == c) with
  | some i => (i : Int)
  | none => -1

/-- Python `str.rfind` for one character: last index, else -1. -/
def pyRfind (t : List Char) (c : Char) : Int :=
  match t.reverse.findIdx? (fun x => x == c) with
  | some i => ((t.length - 1 - i : Nat) : Int)
  | none => -1

/-- Model of `extract_json_block` (source lines 103-109). -/
def extract_json_block (text : List Char) : Except Err Json :=
  let start := pyFind text '\x7b'
  let stop := pyRfind text '\x7d'
  if start = -1 ∨ stop = -1 ∨ stop ≤ start then .error (.noJson text)
  else
    let snippet := (text.take (stop.toNat + 1)).drop start.toNat
    match jsonLoads snippet with
    | none => .error (.jsonDecode snippet)
    | some v => .ok v

/-- One record of the output `lenses` array (spec name: LensResult). -/
structure LensResult where
  id : List Char
  title : List Char
  summary : List Char
  key_points : List (List Char)
  recommended_terms : List (List Char)
  source_notes : List (List Char)

/-- Field extraction and record assembly (source lines 139-150).  A non-dict
payload or a non-iterable `bullets` value would raise
(AttributeError/TypeError). -/
def assembleSection (lensId : List Char) (ls : LensSpec) (payload : Json) :
    Except Err LensResult :=
  match payload with
  | .obj kvs =>
    let summary := pyStrip (pyStr ((objGet kvs summaryKey).getD (.str [])))
    match pyIter ((objGet kvs bulletsKey).getD (.arr [])) with
    | none => .error .typeError
    | some items =>
      let bullets := (items.map (fun it => pyStrip (pyStr it))).filter (fun b => !b.isEmpty)
      .ok (LensResult.mk lensId ls.title summary (bullets.take 3) ls.recommended_terms ls.source_notes)
  | _ => .error .attrError

/-- One iteration of the generation loop (source lines 114-150). -/
def processLens (env : Env) (http : Request → HttpOutcome) (resume : List Char)
    (entry : List Char × LensSpec) : Except Err LensResult :=
  match call_hugging_face env http (buildPrompt resume entry.2.instruction) with
  | .error e => .error e
  | .ok raw =>
    match raw with
    | .str text =>
      match extract_json_block text with
      | .error e => .error e
      | .ok payload => assembleSection entry.1 entry.2 payload
    | _ => .error .attrError

/-- Model of `generate_sections` (source lines 112-151): process the lenses
in table order; the first failure propagates. -/
def generate_sections (env : Env) (http : Request → HttpOutcome) (resume : List Char) :
    Except Err (List LensResult) :=
  LENSES.mapM (processLens env http resume)

/-- A run of spaces. -/
def spaces (n : Nat) : List Char := List.replicate n ' '

/-- Four lowercase hex digits. -/
def hex4 (n : Nat) : List Char :=
  [hexDigit (n / 4096 % 16), hexDigit (n / 256 % 16), hexDigit (n / 16 % 16), hexDigit (n % 16)]

/-- One character of `json.dumps` output under the default `ensure_ascii`:
ASCII printables pass through, the short escapes are used, every other
character becomes `\uXXXX` (astral characters become surrogate pairs). -/
def jsonEsc (c : Char) : List Char :=
  if c = '"' then ['\\', '"']
  else if c = '\\' then ['\\', '\\']
  else if c = '\n' then ['\\', 'n']
  else if c = '\r' then ['\\', 'r']
  else if c = '\t' then ['\\', 't']
  else if c = '\x08' then ['\\', 'b']
  else if c = '\x0c' then ['\\', 'f']
  else if 32 ≤ c.toNat ∧ c.toNat < 127 then [c]
  else if c.toNat < 0x10000 then '\\' :: 'u' :: hex4 c.toNat
  else
    let n := c.toNat - 0x10000
    ('\\' :: 'u' :: hex4 (0xd800 + n / 0x400)) ++ ('\\' :: 'u' :: hex4 (0xdc00 + n % 0x400))

/-- `json.dumps` rendering of a string. -/
def jsonQuote (s : List Char) : List Char := '"' :: ((s.map jsonEsc).flatten ++ ['"'])

mutual

/-- Model of `json.dumps(..., indent=2)` (source line 163), at nesting
level `lv`. -/
def dumpVal (lv : Nat) : Json → List Char
  | .null => "null".toList
  | .bool true => "true".toList
  | .bool false => "false".toList
  | .num n => intStr n
  | .str s => jsonQuote s
  | .arr [] => "[]".toList
  | .arr (x :: xs) =>
    '[' :: '\n' :: (spaces (lv + 2) ++ dumpVal (lv + 2) x ++ dumpArrTail (lv + 2) xs
      ++ '\n' :: (spaces lv ++ [']']))
  | .obj [] => "\x7b\x7d".toList
  | .obj (kv :: kvs) =>
    '\x7b' :: '\n' :: (spaces (lv + 2) ++ jsonQuote kv.1 ++ ':' :: ' ' :: dumpVal (lv + 2) kv.2
      ++ dumpObjTail (lv + 2) kvs ++ '\n' :: (spaces lv ++ ['\x7d']))

/-- Remaining array elements. -/
def dumpArrTail (lv : Nat) : List Json → List Char
  | [] => []
  | x :: xs => ',' :: '\n' :: (spaces lv ++ dumpVal lv x ++ dumpArrTail lv xs)

/-- Remaining object members. -/
def dumpObjTail (lv : Nat) : List (List Char × Json) → List Char
  | [] => []
  | kv :: kvs =>
    ',' :: '\n' :: (spaces lv ++ jsonQuote kv.1 ++ ':' :: ' ' :: dumpVal lv kv.2 ++ dumpObjTail lv kvs)

end

/-- Path of the resume source (relative to the script's parent). -/
def RESUME_PATH : List Char := "resume.txt".toList

/-- The fixed model hint written into the output (source line 159). -/
def MODEL_HINT : List Char :=
  "Generated via Hugging Face Inference API (default mistralai/Mistral-7B-Instruct-v0.3).".toList

/-- The JSON value of one output record (dict literal at lines 141-149). -/
def lensJson (r : LensResult) : Json :=
  .obj [("id".toList, .str r.id), ("title".toList, .str r.title),
        ("summary".toList, .str r.summary),
        ("key_points".toList, .arr (r.key_points.map Json.str)),
        ("recommended_terms".toList, .arr (r.recommended_terms.map Json.str)),
        ("source_notes".toList, .arr (r.source_notes.map Json.str))]

/-- The top-level output payload (source lines 157-161). -/
def docJson (ts : List Char) (sections : List LensResult) : Json :=
  .obj [("generated_at".toList, .str ts), ("model_hint".toList, .str MODEL_HINT),
        ("lenses".toList, .arr (sections.map lensJson))]

/-- The bytes written to the output file. -/
def outputDoc (ts : List Char) (sections : List LensResult) : List Char :=
  dumpVal 0 (docJson ts sections)

/-- The filesystem state the program touches. -/
structure FS where
  resumeFile : Option (List Char)
  outFile : Option (List Char)

/-- Model of `load_resume` (source lines 55-58). -/
def load_resume (fs : FS) : Except Err (List Char) :=
  match fs.resumeFile with
  | none => .error (.fileNotFound RESUME_PATH)
  | some t => .ok t

/-- Model of `main` (source lines 154-164): load, generate, then write; the
output file is assigned only after every lens has succeeded, and an error
propagates with the filesystem state unchanged.  The timestamp `ts` stands
for the `datetime.now(timezone.utc).strftime(...)` value. -/
def mainRun (fs : FS) (env : Env) (http : Request → HttpOutcome) (ts : List Char) :
    Except Err Unit × FS :=
  match load_resume fs with
  | .error e => (.error e, fs)
  | .ok resume =>
    match generate_sections env http resume with
    | .error e => (.error e, fs)
    | .ok sections => (.ok (), FS.mk fs.resumeFile (some (outputDoc ts sections)))

/-! Constants for the prompt-template analysis: the individual template
lines, and the dedented template pieces. -/

def sp12 : List Char := spaces 12

def lineSys : List Char := "            System:".toList

def lineGen : List Char := "            You generate concise JSON summaries for professional résumés. Do not include commentary outside JSON.".toList

def lineRes : List Char := "            Resume:".toList

def lineInstrHdr : List Char := "            Instruction:".toList

def lineFmt : List Char := "            Format:".toList

def lineObr : List Char := "            \x7b".toList

def lineSum : List Char := "              \"summary\": \"<80-120 word paragraph>\",".toList

def lineBulHdr : List Char := "              \"bullets\": [".toList

def lineB1 : List Char := "                \"bullet one\",".toList

def lineB2 : List Char := "                \"bullet two\",".toList

def lineB3 : List Char := "                \"bullet three\"".toList

def lineBrk : List Char := "              ]".toList

def lineCbr : List Char := "            \x7d".toList

/-- The dedented template before the résumé text, after the final strip. -/
def promptHeadC : List Char :=
  "System:\nYou generate concise JSON summaries for professional résumés. Do not include commentary outside JSON.\n\nResume:\n".toList

/-- The dedented template between the résumé and the instruction. -/
def promptMidC : List Char := "\n\nInstruction:\n".toList

/-- The dedented template after the instruction, after the final strip. -/
def promptTailC : List Char :=
  "\n\nFormat:\n\x7b\n  \"summary\": \"<80-120 word paragraph>\",\n  \"bullets\": [\n    \"bullet one\",\n    \"bullet two\",\n    \"bullet three\"\n  ]\n\x7d".toList

/-- The template lines from the blank line after the instruction line to
the end. -/
def fmtTail : List (List Char) :=
  [] :: lineFmt :: lineObr :: lineSum :: lineBulHdr :: lineB1 :: lineB2 :: lineB3 :: lineBrk
    :: lineCbr :: sp12 :: []

/-- The same lines after whitespace-only lines are emptied. -/
def fmtTailPh : List (List Char) :=
  [] :: lineFmt :: lineObr :: lineSum :: lineBulHdr :: lineB1 :: lineB2 :: lineB3 :: lineBrk
    :: lineCbr :: [] :: []

/-- The dedented template head, before the final strip. -/
def dedPre : List Char := '\n' :: promptHeadC

/-- The dedented template tail, before the final strip. -/
def dedPost : List Char := promptTailC ++ ['\n']

/-- Boolean contiguous-substring search (used to settle containment
statements about concrete prompts by evaluation). -/
def occursIn (p : List Char) : List Char → Bool
  | [] => p.isEmpty
  | c :: t => p.isPrefixOf (c :: t) || occursIn p t

/-! Helper lemmas about Python string trimming. -/

theorem dropWhile_idem (p : Char → Bool) (l : List Char) :
    (l.dropWhile p).dropWhile p = l.dropWhile p := by
  induction l with
  | nil => rfl
  | cons c t ih =>
    by_cases h : p c = true
    · simpa [List.dropWhile_cons, h] using ih
    · simp [List.dropWhile_cons, h]

theorem dropWhile_head_false (p : Char → Bool) (l : List Char) (a : Char) (t : List Char)
    (h : l.dropWhile p = a :: t) : p a = false := by
  induction l with
  | nil => simp at h
  | cons c t2 ih =>
    by_cases hc : p c = true
    · rw [List.dropWhile_cons, if_pos hc] at h
      exact ih h
    · rw [List.dropWhile_cons, if_neg hc] at h
      cases h
      simpa using hc

theorem pyStrip_head (l : List Char) (a : Char) (t : List Char)
    (h : pyStrip l = a :: t) : isPyWs a = false := by
  have h2 : ((l.dropWhile isPyWs).reverse.dropWhile isPyWs).reverse = a :: t := h
  have h3 : (l.dropWhile isPyWs).reverse.dropWhile isPyWs = t.reverse ++ [a] := by
    have := congrArg List.reverse h2
    simpa using this
  have hsuf : (l.dropWhile isPyWs).reverse.dropWhile isPyWs <:+ (l.dropWhile isPyWs).reverse :=
    List.dropWhile_suffix isPyWs
  obtain ⟨u, hu⟩ := hsuf
  have hlast : (l.dropWhile isPyWs).reverse.getLast? = some a := by
    rw [← hu, h3, ← List.append_assoc, List.getLast?_concat]
  have hhead : (l.dropWhile isPyWs).head? = some a := by
    rwa [List.getLast?_reverse] at hlast
  cases hdl : l.dropWhile isPyWs with
  | nil => rw [hdl] at hhead; simp at hhead
  | cons b bt =>
    rw [hdl] at hhead
    simp at hhead
    subst hhead
    exact dropWhile_head_false isPyWs l b bt hdl

theorem dropWhile_pyStrip (l : List Char) :
    (pyStrip l).dropWhile isPyWs = pyStrip l := by
  cases h : pyStrip l with
  | nil => rfl
  | cons a t => simp [List.dropWhile_cons, pyStrip_head l a t h]

theorem pyStrip_idem (l : List Char) : pyStrip (pyStrip l) = pyStrip l := by
  have h1 : (pyStrip l).dropWhile isPyWs = pyStrip l := dropWhile_pyStrip l
  show (((pyStrip l).dropWhile isPyWs).reverse.dropWhile isPyWs).reverse = pyStrip l
  rw [h1]
  show (((((l.dropWhile isPyWs).reverse.dropWhile isPyWs).reverse).reverse.dropWhile isPyWs)).reverse
      = pyStrip l
  rw [List.reverse_reverse, dropWhile_idem]
  rfl

theorem dropWhile_concat_ne_nil (p : Char → Bool) (a : Char) (h : p a = false)
    (l : List Char) : (l ++ [a]).dropWhile p ≠ [] := by
  induction l with
  | nil => simp [List.dropWhile_cons, h]
  | cons c t ih =>
    by_cases hc : p c = true
    · simpa [List.dropWhile_cons, hc] using ih
    · simp [List.dropWhile_cons, hc]

theorem pyStrip_cons_ne_nil (a : Char) (t : List Char) (h : isPyWs a = false) :
    pyStrip (a :: t) ≠ [] := by
  show (((a :: t).dropWhile isPyWs).reverse.dropWhile isPyWs).reverse ≠ []
  rw [List.dropWhile_cons, if_neg (by simp [h])]
  rw [List.reverse_cons]
  intro hcontra
  exact dropWhile_concat_ne_nil isPyWs a h t.reverse (by simpa using hcontra)

/-! Claim C1.  The response extractor on the input from the claim. -/

def c1Input : List Char := "\x7b\"a\":1\x7d blah \x7b".toList

/-- C1 is refuted: on the input of the claim, the substring from the first
opening brace to the last closing brace is the seven-character leading
object, not the whole input as the claim asserts; that substring parses as
JSON, and the extractor returns the object instead of raising. -/
theorem C1_counterexample :
    (c1Input.take ((pyRfind c1Input '\x7d').toNat + 1)).drop (pyFind c1Input '\x7b').toNat
        ≠ c1Input
    ∧ extract_json_block c1Input = .ok (Json.obj [("a".toList, Json.num 1)]) :=
  ⟨by decide, rfl⟩

/-- C1 (amended): on the input of the claim the extractor locates the
substring from the first opening brace (index 0) to the last closing brace
(index 6), the seven characters of the leading object; that substring
parses as JSON, so the extractor returns the object (no error is raised:
the later lone opening brace lies outside the located substring). -/
theorem C1_amended_thm :
    (c1Input.take ((pyRfind c1Input '\x7d').toNat + 1)).drop (pyFind c1Input '\x7b').toNat
        = "\x7b\"a\":1\x7d".toList
    ∧ extract_json_block c1Input = .ok (Json.obj [("a".toList, Json.num 1)]) :=
  ⟨rfl, rfl⟩

/-! Claim C4.  Concrete assembly of a LensResult. -/

def c4Payload : Json :=
  .obj [("summary".toList, .str "  hi  ".toList),
        ("bullets".toList,
          .arr [.str "  a  ".toList, .str [], .str "b".toList, .str "c".toList, .str "d".toList])]

/-- C4: on the response object of the claim, the assembled record has
summary "hi" and key_points ["a", "b", "c"]: summary and bullets are
trimmed, the bullet that trims to empty is dropped, and the list is cut to
the first three entries (for every lens configuration). -/
theorem C4_thm : ∀ lensId ls, assembleSection lensId ls c4Payload =
    .ok (LensResult.mk lensId ls.title "hi".toList
      ["a".toList, "b".toList, "c".toList] ls.recommended_terms ls.source_notes) := by
  intro lensId ls
  rfl

/-! Claim C8.  Credential resolution. -/

def envNone : Env := fun _ => none

def envBothEmpty : Env := fun k =>
  if k = "HF_API_TOKEN".toList ∨ k = "HF_TOKEN".toList then some [] else none

def envEmptyPrimary : Env := fun k =>
  if k = "HF_API_TOKEN".toList then some []
  else if k = "HF_TOKEN".toList then some "tok".toList else none

def envPrimaryTok : Env := fun k =>
  if k = "HF_API_TOKEN".toList then some "tok".toList else none

/-- C8: with both credential variables set to the empty string the client
fails with the missing-credential error, exactly as with neither set; and
an empty primary variable falls through to the fallback variable, whose
value is then used as the credential (the call behaves as if the fallback
value had been the primary). -/
theorem C8_thm : ∀ http prompt,
    call_hugging_face envBothEmpty http prompt = .error .missingCredential
    ∧ call_hugging_face envNone http prompt = .error .missingCredential
    ∧ call_hugging_face envEmptyPrimary http prompt = call_hugging_face envPrimaryTok http prompt := by
  intro http prompt
  exact ⟨rfl, rfl, rfl⟩

/-! Claim C3.  Response-shape handling of the inference client. -/

def c3Body : List Char := "[\x7b\"generated_text\": \"\"\x7d]".toList

def c3Parsed : Json := .arr [.obj [(gtKey, .str [])]]

/-- C3 is refuted: this response body is valid JSON and matches the first
recognized shape (a non-empty array whose first element is an object with a
generated_text field), yet the client raises (the empty string is falsy)
instead of returning the generated text. -/
theorem C3_counterexample :
    jsonLoads c3Body = some c3Parsed
    ∧ handleResponse c3Parsed = .error (.unexpectedPayload c3Parsed)
    ∧ call_hugging_face envPrimaryTok (fun _ => .success c3Body) []
        = .error (.unexpectedPayload c3Parsed) :=
  ⟨rfl, rfl, rfl⟩

/-- C3 (amended): full characterization of the dispatch on parsed response
payloads.  A non-empty array whose first element is an object with a truthy
generated_text value yields that value; with a falsy or absent value it
raises an error carrying the payload; with a non-object first element it
raises an attribute error (not carrying the payload).  A non-array object
with the field yields the stringified value; every other payload raises an
error carrying the payload. -/
theorem C3_amended_thm :
    (∀ kvs rest v, objGet kvs gtKey = some v → pyTruthy v = true →
        handleResponse (.arr (.obj kvs :: rest)) = .ok v)
    ∧ (∀ kvs rest, pyTruthy ((objGet kvs gtKey).getD (.str [])) = false →
        handleResponse (.arr (.obj kvs :: rest))
          = .error (.unexpectedPayload (.arr (.obj kvs :: rest))))
    ∧ (∀ x0 rest, (∀ kvs, x0 ≠ .obj kvs) →
        handleResponse (.arr (x0 :: rest)) = .error .attrError)
    ∧ (∀ kvs v, objGet kvs gtKey = some v →
        handleResponse (.obj kvs) = .ok (.str (pyStr v)))
    ∧ (∀ kvs, objGet kvs gtKey = none →
        handleResponse (.obj kvs) = .error (.unhandledStructure (.obj kvs)))
    ∧ (∀ j, (∀ x0 rest, j ≠ .arr (x0 :: rest)) → (∀ kvs, j ≠ .obj kvs) →
        handleResponse j = .error (.unhandledStructure j)) := by
  refine ⟨?_, ?_, ?_, ?_, ?_, ?_⟩
  · intro kvs rest v hv ht
    simp [handleResponse, hv, ht]
  · intro kvs rest hf
    simp [handleResponse, hf]
  · intro x0 rest hx
    cases x0 with
    | obj kvs => exact absurd rfl (hx kvs)
    | null => rfl
    | bool b => rfl
    | num n => rfl
    | str s => rfl
    | arr xs => rfl
  · intro kvs v hv
    simp [handleResponse, hv]
  · intro kvs hv
    simp [handleResponse, hv]
  · intro j h1 h2
    cases j with
    | arr xs =>
      cases xs with
      | nil => rfl
      | cons x0 rest => exact absurd rfl (h1 x0 rest)
    | obj kvs => exact absurd rfl (h2 kvs)
    | null => rfl
    | bool b => rfl
    | num n => rfl
    | str s => rfl

/-- C3 witness: the first part of the characterization at a concrete
payload with a non-empty generated text. -/
theorem C3_witness :
    handleResponse (.arr [.obj [(gtKey, .str "hello".toList)]])
      = .ok (.str "hello".toList) :=
  C3_amended_thm.1 _ [] _ rfl rfl

/-! Claim C5.  Invariants of every assembled record. -/

/-- C5: every successfully assembled record has at most three key points,
and every key point is non-empty and invariant under trimming (so none is
an empty string after trimming). -/
theorem C5_thm (lensId : List Char) (ls : LensSpec) (payload : Json) (r : LensResult)
    (h : assembleSection lensId ls payload = .ok r) :
    r.key_points.length ≤ 3 ∧ ∀ b ∈ r.key_points, b ≠ [] ∧ pyStrip b = b := by
  cases payload with
  | null => exact absurd h (by simp [assembleSection])
  | bool b => exact absurd h (by simp [assembleSection])
  | num n => exact absurd h (by simp [assembleSection])
  | str s => exact absurd h (by simp [assembleSection])
  | arr xs => exact absurd h (by simp [assembleSection])
  | obj kvs =>
    simp only [assembleSection] at h
    cases hit : pyIter ((objGet kvs bulletsKey).getD (.arr [])) with
    | none => rw [hit] at h; exact absurd h (by simp)
    | some items =>
      rw [hit] at h
      simp only [] at h
      injection h with h2
      subst h2
      constructor
      · exact List.length_take_le 3 _
      · intro b hb
        have hb2 := List.mem_of_mem_take hb
        obtain ⟨hmap, hpred⟩ := List.mem_filter.mp hb2
        obtain ⟨it, _, hit2⟩ := List.mem_map.mp hmap
        constructor
        · intro hnil
          rw [hnil] at hpred
          simp at hpred
        · rw [← hit2, pyStrip_idem]

/-- C5 witness at the response object of claim C4. -/
theorem C5_witness :
    ∃ r, assembleSection "x".toList (LensSpec.mk [] [] [] []) c4Payload = .ok r
      ∧ r.key_points.length ≤ 3 ∧ ∀ b ∈ r.key_points, b ≠ [] ∧ pyStrip b = b :=
  ⟨_, rfl, C5_thm "x".toList (LensSpec.mk [] [] [] []) c4Payload _ rfl⟩

/-! Claim C9.  Stringification of the summary field; digit-string lemmas. -/

theorem isPyWs_digit (d : Nat) (h : d < 10) : isPyWs (digitCh d) = false := by
  interval_cases d <;> decide

theorem natStrAux_spec (fuel : Nat) : ∀ n, n < fuel →
    natStrAux fuel n ≠ [] ∧ ∀ c ∈ natStrAux fuel n, ∃ d, d < 10 ∧ c = digitCh d := by
  induction fuel with
  | zero => intro n h; exact absurd h (Nat.not_lt_zero n)
  | succ fuel ih =>
    intro n h
    by_cases h10 : n < 10
    · refine ⟨by simp [natStrAux, h10], ?_⟩
      intro c hc
      simp [natStrAux, h10] at hc
      exact ⟨n, h10, hc⟩
    · have hd : n / 10 < fuel := by
        have h1 : n / 10 < n := Nat.div_lt_self (by omega) (by omega)
        omega
      obtain ⟨hne, hall⟩ := ih (n / 10) hd
      constructor
      · simp [natStrAux, h10]
      · intro c hc
        simp [natStrAux, h10] at hc
        rcases hc with hc | hc
        · exact hall c hc
        · exact ⟨n % 10, Nat.mod_lt n (by omega), hc⟩

theorem natStr_head_digit (n : Nat) : ∃ a t, natStr n = a :: t ∧ isPyWs a = false := by
  obtain ⟨hne, hall⟩ := natStrAux_spec (n + 1) n (Nat.lt_succ_self n)
  cases hns : natStrAux (n + 1) n with
  | nil => exact absurd hns hne
  | cons a t =>
    refine ⟨a, t, hns, ?_⟩
    obtain ⟨d, hd, hcd⟩ := hall a (by rw [hns]; exact List.mem_cons_self a t)
    rw [hcd]
    exact isPyWs_digit d hd

theorem pyStrip_intStr_ne_nil (n : Int) : pyStrip (intStr n) ≠ [] := by
  by_cases hneg : n < 0
  · simp only [intStr, if_pos hneg]
    exact pyStrip_cons_ne_nil '-' _ (by decide)
  · obtain ⟨a, t, hs, ha⟩ := natStr_head_digit n.natAbs
    simp only [intStr, if_neg hneg, hs]
    exact pyStrip_cons_ne_nil a t ha

/-- C9: a null summary value is rendered as the four-character string
"None" (not the empty string); in general a present non-string value
yields the trimmed stringification, which is never empty; an absent field
yields the empty string. -/
theorem C9_thm :
    (∀ lensId ls, assembleSection lensId ls (.obj [(summaryKey, .null)])
        = .ok (LensResult.mk lensId ls.title "None".toList [] ls.recommended_terms ls.source_notes))
    ∧ (∀ lensId ls kvs v r, objGet kvs summaryKey = some v → (∀ s, v ≠ .str s) →
        assembleSection lensId ls (.obj kvs) = .ok r →
        r.summary = pyStrip (pyStr v) ∧ r.summary ≠ [])
    ∧ (∀ lensId ls kvs r, objGet kvs summaryKey = none →
        assembleSection lensId ls (.obj kvs) = .ok r → r.summary = []) := by
  refine ⟨fun lensId ls => rfl, ?_, ?_⟩
  · intro lensId ls kvs v r hv hns h
    simp only [assembleSection, hv, Option.getD_some] at h
    cases hit : pyIter ((objGet kvs bulletsKey).getD (.arr [])) with
    | none => rw [hit] at h; exact absurd h (by simp)
    | some items =>
      rw [hit] at h
      simp only [] at h
      injection h with h2
      subst h2
      refine ⟨rfl, ?_⟩
      show pyStrip (pyStr v) ≠ []
      cases v with
      | str s => exact absurd rfl (hns s)
      | null => decide
      | bool b => cases b <;> decide
      | num n => exact pyStrip_intStr_ne_nil n
      | arr xs =>
        have he : pyStr (.arr xs) = '[' :: (seqRepr xs ++ [']']) := rfl
        rw [he]
        exact pyStrip_cons_ne_nil '[' _ (by decide)
      | obj kvs2 =>
        have he : pyStr (.obj kvs2) = '\x7b' :: (dictRepr kvs2 ++ ['\x7d']) := rfl
        rw [he]
        exact pyStrip_cons_ne_nil '\x7b' _ (by decide)
  · intro lensId ls kvs r hv h
    simp only [assembleSection, hv, Option.getD_none] at h
    cases hit : pyIter ((objGet kvs bulletsKey).getD (.arr [])) with
    | none => rw [hit] at h; exact absurd h (by simp)
    | some items =>
      rw [hit] at h
      simp only [] at h
      injection h with h2
      subst h2
      rfl

/-- C9 witness: the second part at a present boolean summary value. -/
theorem C9_witness :
    ∃ r, assembleSection "x".toList (LensSpec.mk [] [] [] [])
        (.obj [(summaryKey, .bool true)]) = .ok r
      ∧ r.summary = pyStrip (pyStr (.bool true)) ∧ r.summary ≠ [] :=
  ⟨_, rfl, C9_thm.2.1 "x".toList (LensSpec.mk [] [] [] []) [(summaryKey, .bool true)] (.bool true) _ rfl (fun _ h => Json.noConfusion h) rfl⟩

/-! Claim C10.  Iterating a string-valued bullets field. -/

theorem pyStrip_single (c : Char) : pyStrip [c] = if isPyWs c then [] else [c] := by
  by_cases hc : isPyWs c = true
  · simp [pyStrip, List.dropWhile_cons, hc]
  · simp [pyStrip, List.dropWhile_cons, hc]

theorem bullets_of_chars (s : List Char) :
    ((s.map (fun c => Json.str [c])).map (fun it => pyStrip (pyStr it))).filter
        (fun b => !b.isEmpty)
      = (s.filter (fun c => !isPyWs c)).map (fun c => [c]) := by
  induction s with
  | nil => rfl
  | cons c t ih =>
    by_cases hc : isPyWs c = true
    · simpa [pyStr, pyStrip_single, hc] using ih
    · simpa [pyStr, pyStrip_single, hc] using ih

/-- C10: when the bullets field holds a string, iteration is character by
character: each character is stringified and trimmed, whitespace characters
are dropped, and the key points are the first three remaining characters as
one-character strings. -/
theorem C10_thm (lensId : List Char) (ls : LensSpec) (kvs : List (List Char × Json))
    (s : List Char) (r : LensResult)
    (hb : objGet kvs bulletsKey = some (.str s))
    (h : assembleSection lensId ls (.obj kvs) = .ok r) :
    r.key_points = ((s.filter (fun c => !isPyWs c)).map (fun c => [c])).take 3 := by
  simp only [assembleSection, hb, Option.getD_some] at h
  simp only [pyIter] at h
  injection h with h2
  subst h2
  show (((s.map (fun c => Json.str [c])).map (fun it => pyStrip (pyStr it))).filter
      (fun b => !b.isEmpty)).take 3 = _
  rw [bullets_of_chars]

/-- C10 witness: bullets "abcd" yield key points ["a", "b", "c"]. -/
theorem C10_witness :
    ∃ r, assembleSection "x".toList (LensSpec.mk [] [] [] [])
        (.obj [(bulletsKey, .str "abcd".toList)]) = .ok r
      ∧ r.key_points = (("abcd".toList.filter (fun c => !isPyWs c)).map (fun c => [c])).take 3 :=
  ⟨_, rfl, C10_thm "x".toList (LensSpec.mk [] [] [] []) [(bulletsKey, .str "abcd".toList)] "abcd".toList _ rfl rfl⟩

/-! Claim C6.  Any failure aborts the run before the writer. -/

/-- C6: whenever the run fails (with any error of the taxonomy: missing
input file, missing credential, transport failure, non-success HTTP status,
unrecognized response shape, extraction failure, or JSON-syntax failure),
the filesystem is unchanged: no output file is written and a pre-existing
output file is untouched. -/
theorem C6_thm (fs : FS) (env : Env) (http : Request → HttpOutcome) (ts : List Char)
    (e : Err) (h : (mainRun fs env http ts).1 = .error e) :
    (mainRun fs env http ts).2 = fs := by
  unfold mainRun
  unfold mainRun at h
  cases hl : load_resume fs with
  | error e2 => rfl
  | ok resume =>
    rw [hl] at h
    dsimp only at h ⊢
    cases hg : generate_sections env http resume with
    | error e2 => rfl
    | ok sections =>
      rw [hg] at h
      exact absurd h (by simp)

def c6Fs : FS := FS.mk (some "resume".toList) (some "previous run".toList)

def c6Http : Request → HttpOutcome := fun _ => .httpError 500 "server error".toList

/-- C6 witness: a 500 response on a lens aborts the run with the HTTP error
and leaves the pre-existing output file unchanged. -/
theorem C6_witness :
    (mainRun c6Fs envPrimaryTok c6Http "T".toList).1
        = .error (.httpError 500 "server error".toList)
    ∧ (mainRun c6Fs envPrimaryTok c6Http "T".toList).2 = c6Fs :=
  ⟨rfl, C6_thm c6Fs envPrimaryTok c6Http "T".toList _ rfl⟩

/-! Claim C7.  Determinism up to the timestamp. -/

/-- The serialized output document splits around the escaped timestamp:
everything before and after depends only on the sections. -/
theorem outputDoc_split (ts : List Char) (sections : List LensResult) :
    outputDoc ts sections
      = ('\x7b' :: '\n' :: (spaces 2 ++ jsonQuote "generated_at".toList ++ [':', ' ']))
        ++ jsonQuote ts
        ++ (dumpObjTail 2 [("model_hint".toList, .str MODEL_HINT),
              ("lenses".toList, .arr (sections.map lensJson))] ++ '\n' :: (spaces 0 ++ ['\x7d'])) := by
  show dumpVal 0 (docJson ts sections) = _
  simp [docJson, dumpVal, List.append_assoc]

/-- C7: two successful runs with the same filesystem, environment, and
deterministic stub, differing only in the timestamp, produce output files
that are byte-identical except for the embedded generated_at value. -/
theorem C7_thm (fs : FS) (env : Env) (http : Request → HttpOutcome) (ts1 ts2 : List Char)
    (h1 : (mainRun fs env http ts1).1 = .ok ())
    (_h2 : (mainRun fs env http ts2).1 = .ok ()) :
    ∃ pre post,
      (mainRun fs env http ts1).2.outFile = some (pre ++ jsonQuote ts1 ++ post)
      ∧ (mainRun fs env http ts2).2.outFile = some (pre ++ jsonQuote ts2 ++ post) := by
  unfold mainRun at h1 _h2 ⊢
  cases hl : load_resume fs with
  | error e3 => rw [hl] at h1; exact absurd h1 (by simp)
  | ok resume =>
    rw [hl] at h1 _h2
    dsimp only at h1 _h2 ⊢
    cases hg : generate_sections env http resume with
    | error e3 => rw [hg] at h1; exact absurd h1 (by simp)
    | ok sections =>
      refine ⟨('\x7b' :: '\n' :: (spaces 2 ++ jsonQuote "generated_at".toList ++ [':', ' '])),
        (dumpObjTail 2 [("model_hint".toList, .str MODEL_HINT),
          ("lenses".toList, .arr (sections.map lensJson))] ++ '\n' :: (spaces 0 ++ ['\x7d'])),
        ?_, ?_⟩
      · show some (outputDoc ts1 sections) = _
        rw [outputDoc_split]
      · show some (outputDoc ts2 sections) = _
        rw [outputDoc_split]

def c7Fs : FS := FS.mk (some "my resume".toList) none

def c7Body : List Char := "[\x7b\"generated_text\": \"\x7b\x7d\"\x7d]".toList

def c7Http : Request → HttpOutcome := fun _ => .success c7Body

/-- C7 witness: two concrete successful stubbed runs with different
timestamps. -/
theorem C7_witness :
    ∃ pre post,
      (mainRun c7Fs envPrimaryTok c7Http "T1".toList).2.outFile
          = some (pre ++ jsonQuote "T1".toList ++ post)
      ∧ (mainRun c7Fs envPrimaryTok c7Http "T2".toList).2.outFile
          = some (pre ++ jsonQuote "T2".toList ++ post) :=
  C7_thm c7Fs envPrimaryTok c7Http "T1".toList "T2".toList rfl rfl

/-! Claim C2.  Splitting lemmas for the line model. -/

theorem splitNl_ne_nil (l : List Char) : splitNl l ≠ [] := by
  cases l with
  | nil => simp [splitNl]
  | cons c cs =>
    by_cases h : c = '\n'
    · simp [splitNl, h]
    · simp only [splitNl, if_neg h]
      cases splitNl cs with
      | nil => simp [consHead]
      | cons l0 ls => simp [consHead]

theorem glue_cons_of_ne_nil (l : List Char) (a b : List (List Char)) (ha : a ≠ []) :
    glue (l :: a) b = l :: glue a b := by
  match a with
  | [] => exact absurd rfl ha
  | a0 :: as2 => rfl

theorem glue_consHead (c : Char) (a b : List (List Char)) (ha : a ≠ []) (hb : b ≠ []) :
    glue (consHead c a) b = consHead c (glue a b) := by
  match a with
  | [] => exact absurd rfl ha
  | [a0] =>
    match b with
    | [] => exact absurd rfl hb
    | b0 :: bs => simp [consHead, glue, glueHead]
  | a0 :: a1 :: as2 => simp [consHead, glue]

theorem splitNl_append (xs ys : List Char) :
    splitNl (xs ++ ys) = glue (splitNl xs) (splitNl ys) := by
  induction xs with
  | nil =>
    show splitNl ys = glue [[]] (splitNl ys)
    cases hb : splitNl ys with
    | nil => exact absurd hb (splitNl_ne_nil ys)
    | cons b0 bs => simp [glue, glueHead]
  | cons c cs ih =>
    show splitNl (c :: (cs ++ ys)) = glue (splitNl (c :: cs)) (splitNl ys)
    by_cases h : c = '\n'
    · simp only [splitNl, if_pos h]
      rw [ih, glue_cons_of_ne_nil _ _ _ (splitNl_ne_nil cs)]
    · simp only [splitNl, if_neg h]
      rw [ih, glue_consHead c _ _ (splitNl_ne_nil cs) (splitNl_ne_nil ys)]

theorem splitNl_no_nl (l : List Char) (h : ¬ '\n' ∈ l) : splitNl l = [l] := by
  induction l with
  | nil => rfl
  | cons c cs ih =>
    have hc : ¬ c = '\n' := fun e => h (by rw [e]; exact List.mem_cons_self '\n' cs)
    simp only [splitNl, if_neg hc]
    rw [ih (fun hm => h (List.mem_cons_of_mem c hm))]
    rfl

set_option maxRecDepth 4000 in
theorem prompt_lines (resume instr : List Char) (hnR : ¬ '\n' ∈ resume) (hnI : ¬ '\n' ∈ instr) :
    splitNl (promptPre ++ resume ++ promptMid ++ instr ++ promptPost)
      = [] :: lineSys :: lineGen :: [] :: lineRes :: (sp12 ++ resume) :: [] :: lineInstrHdr
        :: (sp12 ++ instr) :: [] :: lineFmt :: lineObr :: lineSum :: lineBulHdr :: lineB1
        :: lineB2 :: lineB3 :: lineBrk :: lineCbr :: sp12 :: [] := by
  have hSpre : splitNl promptPre = [[], lineSys, lineGen, [], lineRes, sp12] := rfl
  have hSmid : splitNl promptMid = [[], [], lineInstrHdr, sp12] := rfl
  have hSpost : splitNl promptPost
      = [[], [], lineFmt, lineObr, lineSum, lineBulHdr, lineB1, lineB2, lineB3, lineBrk,
         lineCbr, sp12] := rfl
  simp only [List.append_assoc]
  rw [splitNl_append, splitNl_append, splitNl_append, splitNl_append]
  rw [splitNl_no_nl resume hnR, splitNl_no_nl instr hnI, hSpre, hSmid, hSpost]
  simp [glue, glueHead]

theorem wsOnly_sp12_append (c : Char) (t : List Char) (hc : isSpTab c = false) :
    wsOnlyLine (sp12 ++ c :: t) = false := by
  simp [wsOnlyLine, List.all_append, hc]

theorem takeWhile_all_append (xs : List Char) (hall : xs.all isSpTab = true) (c : Char)
    (hc : isSpTab c = false) (t : List Char) :
    (xs ++ c :: t).takeWhile isSpTab = xs := by
  induction xs with
  | nil => simp [List.takeWhile_cons, hc]
  | cons x xs2 ih =>
    simp only [List.all_cons, Bool.and_eq_true] at hall
    simp [List.takeWhile_cons, hall.1, ih hall.2]

theorem indent_sp12_append (c : Char) (t : List Char) (hc : isSpTab c = false) :
    indentOf (sp12 ++ c :: t) = some sp12 := by
  have h1 : ((sp12 ++ c :: t).any (fun x => !isSpTab x)) = true := by
    simp [List.any_append, hc]
  simp only [indentOf, h1, if_true]
  rw [takeWhile_all_append sp12 (by decide) c hc t]

theorem isPrefixOf_append_self (m t : List Char) : m.isPrefixOf (m ++ t) = true :=
  List.isPrefixOf_iff_prefix.mpr (List.prefix_append m t)

theorem strip_sp12_append (t : List Char) :
    (if sp12.isPrefixOf (sp12 ++ t) then (sp12 ++ t).drop sp12.length else (sp12 ++ t)) = t := by
  rw [isPrefixOf_append_self]
  simp [List.drop_left]

set_option maxRecDepth 8000 in
theorem dedent_concrete (resume instr : List Char)
    (h1 : ∃ c R2, resume = c :: R2 ∧ isSpTab c = false)
    (h2 : ∃ d I2, instr = d :: I2 ∧ isSpTab d = false)
    (hnR : ¬ '\n' ∈ resume) (hnI : ¬ '\n' ∈ instr) :
    dedent (promptPre ++ resume ++ promptMid ++ instr ++ promptPost)
      = dedPre ++ (resume ++ (promptMidC ++ (instr ++ dedPost))) := by
  obtain ⟨c, R2, rfl, hc⟩ := h1
  obtain ⟨d, I2, rfl, hd⟩ := h2
  have hph : ([] :: lineSys :: lineGen :: [] :: lineRes :: (sp12 ++ c :: R2) :: [] :: lineInstrHdr
        :: (sp12 ++ d :: I2) :: [] :: lineFmt :: lineObr :: lineSum :: lineBulHdr :: lineB1
        :: lineB2 :: lineB3 :: lineBrk :: lineCbr :: sp12 :: []).map
          (fun l => if wsOnlyLine l then [] else l)
      = [] :: lineSys :: lineGen :: [] :: lineRes :: (sp12 ++ c :: R2) :: [] :: lineInstrHdr
        :: (sp12 ++ d :: I2) :: [] :: lineFmt :: lineObr :: lineSum :: lineBulHdr :: lineB1
        :: lineB2 :: lineB3 :: lineBrk :: lineCbr :: ([] : List Char) :: [] := by
    simp only [List.map_cons, List.map_nil]
    rw [wsOnly_sp12_append c R2 hc, wsOnly_sp12_append d I2 hd]
    rfl
  have hm : marginOf ([] :: lineSys :: lineGen :: [] :: lineRes :: (sp12 ++ c :: R2) :: []
        :: lineInstrHdr :: (sp12 ++ d :: I2) :: [] :: lineFmt :: lineObr :: lineSum :: lineBulHdr
        :: lineB1 :: lineB2 :: lineB3 :: lineBrk :: lineCbr :: ([] : List Char) :: [])
      = sp12 := by
    unfold marginOf
    simp only [List.filterMap_cons, List.filterMap_nil, indent_sp12_append c R2 hc,
      indent_sp12_append d I2 hd]
    rfl
  have hst : ([] :: lineSys :: lineGen :: [] :: lineRes :: (sp12 ++ c :: R2) :: []
        :: lineInstrHdr :: (sp12 ++ d :: I2) :: [] :: lineFmt :: lineObr :: lineSum :: lineBulHdr
        :: lineB1 :: lineB2 :: lineB3 :: lineBrk :: lineCbr :: ([] : List Char) :: []).map
          (fun l => if sp12.isPrefixOf l then l.drop sp12.length else l)
      = [] :: "System:".toList
        :: "You generate concise JSON summaries for professional résumés. Do not include commentary outside JSON.".toList
        :: [] :: "Resume:".toList :: (c :: R2) :: [] :: "Instruction:".toList :: (d :: I2) :: []
        :: "Format:".toList :: "\x7b".toList :: "  \"summary\": \"<80-120 word paragraph>\",".toList
        :: "  \"bullets\": [".toList :: "    \"bullet one\",".toList :: "    \"bullet two\",".toList
        :: "    \"bullet three\"".toList :: "  ]".toList :: "\x7d".toList
        :: ([] : List Char) :: [] := by
    simp only [List.map_cons, List.map_nil]
    rw [strip_sp12_append (c :: R2), strip_sp12_append (d :: I2)]
    rfl
  unfold dedent
  rw [prompt_lines _ _ hnR hnI, hph]
  unfold dedentLines
  rw [hm, hst]
  rfl

theorem front_drop (A : List Char) : (dedPre ++ A).dropWhile isPyWs = promptHeadC ++ A := by
  rw [List.dropWhile_append]
  rw [show dedPre.dropWhile isPyWs = promptHeadC from rfl]
  rfl

set_option maxRecDepth 4000 in
theorem back_drop (Y : List Char) :
    ((Y ++ dedPost).reverse.dropWhile isPyWs).reverse = Y ++ promptTailC := by
  rw [show dedPost = promptTailC ++ ['\n'] from rfl]
  rw [← List.append_assoc]
  rw [List.reverse_append]
  rw [List.reverse_append]
  rw [show (['\n'] : List Char).reverse = ['\n'] from rfl]
  rw [List.singleton_append, List.dropWhile_cons]
  rw [if_pos (show isPyWs '\n' = true from rfl)]
  rw [List.dropWhile_append]
  rw [show promptTailC.reverse.dropWhile isPyWs = promptTailC.reverse from rfl]
  rw [show promptTailC.reverse.isEmpty = false from rfl]
  simp

set_option maxRecDepth 8000 in
theorem buildPrompt_split (resume instr : List Char)
    (h1 : ∃ c R2, resume = c :: R2 ∧ isSpTab c = false)
    (h2 : ∃ d I2, instr = d :: I2 ∧ isSpTab d = false)
    (hnR : ¬ '\n' ∈ resume) (hnI : ¬ '\n' ∈ instr) :
    buildPrompt resume instr
      = promptHeadC ++ (resume ++ (promptMidC ++ (instr ++ promptTailC))) := by
  unfold buildPrompt
  rw [dedent_concrete resume instr h1 h2 hnR hnI]
  unfold pyStrip
  rw [front_drop]
  rw [show promptHeadC ++ (resume ++ (promptMidC ++ (instr ++ dedPost)))
      = (promptHeadC ++ (resume ++ (promptMidC ++ instr))) ++ dedPost by
    simp [List.append_assoc]]
  rw [back_drop]
  simp [List.append_assoc]

/-- C2 is refuted: with the résumé text of two lines whose second line is
indented by one space, the common-margin computation of dedent shrinks the
margin to one space and strips it from the interior résumé line, so the
prompt does not contain the résumé text verbatim. -/
theorem occursIn_iff (p s : List Char) : occursIn p s = true ↔ p <:+: s := by
  induction s with
  | nil =>
    constructor
    · intro h
      simp only [occursIn, List.isEmpty_iff] at h
      subst h
      exact ⟨[], [], rfl⟩
    · intro h
      obtain ⟨s1, t1, he⟩ := h
      simp only [List.append_eq_nil] at he
      simp [occursIn, he.1.2]
    | cons c t ih =>
      rw [List.infix_cons_iff, ← ih, ← List.isPrefixOf_iff_prefix]
      simp [occursIn]

set_option maxRecDepth 8000 in
theorem C2_counterexample :
    ¬ ("x\n y".toList <:+: buildPrompt "x\n y".toList aiPrivacyLens.2.instruction) := by
  intro hinf
  have h2 := (occursIn_iff _ _).mpr hinf
  rw [show occursIn "x\n y".toList
      (buildPrompt "x\n y".toList aiPrivacyLens.2.instruction) = false from rfl] at h2
  exact Bool.noConfusion h2

/-! Margin and containment lemmas showing the instruction text survives
dedent for EVERY résumé text. -/

theorem comPre_prefix_left (a : List Char) : ∀ b, comPre a b <+: a := by
  induction a with
  | nil => intro b; cases b <;> simp [comPre]
  | cons x t ih =>
    intro b
    cases b with
    | nil => simp [comPre]
    | cons y t2 =>
      by_cases h : x = y
      · simp only [comPre, if_pos h]
        exact List.cons_prefix_cons.mpr ⟨rfl, ih t2⟩
      · simp [comPre, h]

theorem comPre_prefix_right (a : List Char) : ∀ b, comPre a b <+: b := by
  induction a with
  | nil => intro b; cases b <;> simp [comPre]
  | cons x t ih =>
    intro b
    cases b with
    | nil => simp [comPre]
    | cons y t2 =>
      by_cases h : x = y
      · simp only [comPre, if_pos h]
        subst h
        exact List.cons_prefix_cons.mpr ⟨rfl, ih t2⟩
      · simp [comPre, h]

theorem foldl_comPre_prefix_init (l : List (List Char)) : ∀ init, l.foldl comPre init <+: init := by
  induction l with
  | nil => intro init; simp
  | cons x t ih =>
    intro init
    rw [List.foldl_cons]
    exact (ih (comPre init x)).trans (comPre_prefix_left init x)

theorem foldl_comPre_prefix_mem (l : List (List Char)) :
    ∀ init x, x ∈ l → l.foldl comPre init <+: x := by
  induction l with
  | nil => intro _ x hx; simp at hx
  | cons y t ih =>
    intro init x hx
    rw [List.foldl_cons]
    rcases List.mem_cons.mp hx with h | h
    · subst h
      exact (foldl_comPre_prefix_init t _).trans (comPre_prefix_right init x)
    · exact ih _ x h

theorem marginOf_prefix (L : List (List Char)) (x : List Char) (hx : x ∈ L)
    (hi : indentOf x = some sp12) : marginOf L <+: sp12 := by
  have hmem : sp12 ∈ L.filterMap indentOf := List.mem_filterMap.mpr ⟨x, hx, hi⟩
  unfold marginOf
  cases hfm : L.filterMap indentOf with
  | nil => rw [hfm] at hmem; simp at hmem
  | cons i is2 =>
    rw [hfm] at hmem
    rcases List.mem_cons.mp hmem with h | h
    · subst h
      exact foldl_comPre_prefix_init is2 _
    · exact foldl_comPre_prefix_mem is2 _ _ h

theorem glue_tail (a : List (List Char)) :
    ∀ b0 bs, ∃ A, A ≠ [] ∧ glue a (b0 :: bs) = A ++ bs := by
  induction a with
  | nil => intro b0 bs; exact ⟨[b0], by simp, rfl⟩
  | cons a0 t ih =>
    intro b0 bs
    cases t with
    | nil => exact ⟨[a0 ++ b0], by simp, rfl⟩
    | cons a1 t2 =>
      obtain ⟨A, hA, hg⟩ := ih b0 bs
      exact ⟨a0 :: A, by simp, by simp [glue, hg]⟩

set_option maxRecDepth 4000 in
theorem prompt_lines_instr (resume instr : List Char) (hnI : ¬ '\n' ∈ instr) :
    ∃ A, splitNl (promptPre ++ resume ++ promptMid ++ instr ++ promptPost)
      = A ++ lineInstrHdr :: (sp12 ++ instr) :: fmtTail := by
  have hSpre : splitNl promptPre = [[], lineSys, lineGen, [], lineRes, sp12] := rfl
  have hSmid : splitNl promptMid = [[], [], lineInstrHdr, sp12] := rfl
  have hSpost : splitNl promptPost = [] :: [] :: fmtTail.tail := rfl
  simp only [List.append_assoc]
  rw [splitNl_append, splitNl_append, splitNl_append, splitNl_append]
  rw [splitNl_no_nl instr hnI, hSpre, hSmid, hSpost]
  have h1 : glue [instr] ([] :: [] :: fmtTail.tail) = instr :: [] :: fmtTail.tail := by
    simp [glue, glueHead]
  have h2 : glue [[], [], lineInstrHdr, sp12] (instr :: [] :: fmtTail.tail)
      = [] :: [] :: lineInstrHdr :: (sp12 ++ instr) :: fmtTail := by
    simp [glue, glueHead]
    rfl
  rw [h1, h2]
  obtain ⟨A1, hA1ne, hA1⟩ := glue_tail (splitNl resume) []
    ([] :: lineInstrHdr :: (sp12 ++ instr) :: fmtTail)
  rw [hA1]
  obtain ⟨a10, A1x, rfl⟩ := List.exists_cons_of_ne_nil hA1ne
  rw [List.cons_append]
  obtain ⟨A2, hA2ne, hA2⟩ := glue_tail [[], lineSys, lineGen, [], lineRes, sp12] a10
    (A1x ++ [] :: lineInstrHdr :: (sp12 ++ instr) :: fmtTail)
  rw [hA2]
  exact ⟨A2 ++ A1x ++ [[]], by simp [List.append_assoc]⟩

theorem dropWhile_ne_nil_of_any (p : Char → Bool) (l : List Char)
    (h : l.any (fun c => !p c) = true) : l.dropWhile p ≠ [] := by
  induction l with
  | nil => simp at h
  | cons c t ih =>
    by_cases hc : p c = true
    · simp only [List.any_cons, hc, Bool.not_true, Bool.false_or] at h
      simpa [List.dropWhile_cons, hc] using ih h
    · simp [List.dropWhile_cons, hc]

theorem dropWhile_append_of_any (p : Char → Bool) (a b : List Char)
    (h : a.any (fun c => !p c) = true) :
    (a ++ b).dropWhile p = a.dropWhile p ++ b := by
  rw [List.dropWhile_append]
  have := dropWhile_ne_nil_of_any p a h
  rw [if_neg]
  simpa [List.isEmpty_iff] using this

theorem back_drop_of_any (u v : List Char) (h : v.any (fun c => !isPyWs c) = true) :
    ((u ++ v).reverse.dropWhile isPyWs).reverse
      = u ++ (v.reverse.dropWhile isPyWs).reverse := by
  rw [List.reverse_append]
  rw [dropWhile_append_of_any isPyWs v.reverse u.reverse (by simpa using h)]
  rw [List.reverse_append, List.reverse_reverse]

theorem joinNl_two (y1 y2 : List Char) (B : List (List Char)) (hB : B ≠ []) :
    ∀ A, ∃ P, joinNl (A ++ y1 :: y2 :: B) = P ++ (y1 ++ '\n' :: (y2 ++ '\n' :: joinNl B)) := by
  intro A
  induction A with
  | nil =>
    refine ⟨[], ?_⟩
    obtain ⟨b0, bt, rfl⟩ := List.exists_cons_of_ne_nil hB
    simp [joinNl]
  | cons a t ih =>
    obtain ⟨P, hP⟩ := ih
    refine ⟨a ++ '\n' :: P, ?_⟩
    have hne : t ++ y1 :: y2 :: B ≠ [] := by simp
    obtain ⟨h0, ht, he⟩ := List.exists_cons_of_ne_nil hne
    rw [List.cons_append, he, joinNl, ← he, hP]
    simp

theorem mem_joinNl_head (c : Char) (x : List Char) (rest : List (List Char)) (hc : c ∈ x) :
    c ∈ joinNl (x :: rest) := by
  cases rest with
  | nil => simpa [joinNl] using hc
  | cons r rt => simp [joinNl, hc]

/-- A list occurs as a contiguous substring right of a newline marker. -/
theorem infix_mid (x y z w : List Char) : y <:+: (x ++ ('\n' :: (z ++ y))) ++ w :=
  ⟨x ++ ('\n' :: z), w, by simp [List.append_assoc]⟩

/-- A character of a member line occurs in the joined text. -/
theorem mem_joinNl (c : Char) (x : List Char) (L : List (List Char)) (hx : x ∈ L)
    (hc : c ∈ x) : c ∈ joinNl L := by
  induction L with
  | nil => simp at hx
  | cons a rest ih =>
    cases rest with
    | nil =>
      rw [List.mem_singleton] at hx
      subst hx
      simpa [joinNl] using hc
    | cons r rt =>
      rcases List.mem_cons.mp hx with h | h
      · subst h
        exact List.mem_append_left _ hc
      · refine List.mem_append_right _ ?_
        exact List.mem_cons_of_mem _ (ih h)

/-- The instruction text appears verbatim in the prompt for EVERY résumé
text: the common margin is always a run of at most twelve spaces (the
Format line pins it), and margin stripping only removes leading whitespace,
never instruction characters. -/
theorem instr_in_prompt (resume instr : List Char) (hnI : ¬ '\n' ∈ instr)
    (hh : ∃ d I2, instr = d :: I2 ∧ isSpTab d = false) :
    instr <:+: buildPrompt resume instr := by
  obtain ⟨A, hA⟩ := prompt_lines_instr resume instr hnI
  obtain ⟨d, I2, rfl, hd⟩ := hh
  unfold buildPrompt dedent
  rw [hA]
  have hmap2 : (lineInstrHdr :: (sp12 ++ d :: I2) :: fmtTail).map
        (fun l => if wsOnlyLine l then [] else l)
      = lineInstrHdr :: (sp12 ++ d :: I2) :: fmtTailPh := by
    rw [show fmtTail = [] :: lineFmt :: lineObr :: lineSum :: lineBulHdr :: lineB1 :: lineB2
        :: lineB3 :: lineBrk :: lineCbr :: sp12 :: [] from rfl]
    simp only [List.map_cons, List.map_nil]
    rw [wsOnly_sp12_append d I2 hd]
    rfl
  rw [List.map_append, hmap2]
  unfold dedentLines
  generalize hL1 : A.map (fun l => if wsOnlyLine l then [] else l)
      ++ lineInstrHdr :: (sp12 ++ d :: I2) :: fmtTailPh = L1
  have hmemFmt : lineFmt ∈ L1 := by
    rw [← hL1]
    simp [fmtTailPh]
  have hmp : marginOf L1 <+: sp12 := marginOf_prefix L1 lineFmt hmemFmt rfl
  generalize hm : marginOf L1 = m at hmp
  have hmlen : m.length ≤ 12 := by
    have := hmp.length_le
    simpa [sp12, spaces] using this
  have hpre12 : ∀ t : List Char, m.isPrefixOf (sp12 ++ t) = true := fun t =>
    List.isPrefixOf_iff_prefix.mpr (hmp.trans (List.prefix_append sp12 t))
  have hdropap : ∀ t : List Char, (sp12 ++ t).drop m.length = sp12.drop m.length ++ t := by
    intro t
    rw [List.drop_append_eq_append_drop]
    rw [show m.length - sp12.length = 0 by
      simp only [sp12, spaces, List.length_replicate]; omega]
    rw [List.drop_zero]
  have hmapstr : (lineInstrHdr :: (sp12 ++ d :: I2) :: fmtTailPh).map
        (fun l => if m.isPrefixOf l then l.drop m.length else l)
      = (sp12.drop m.length ++ "Instruction:".toList)
        :: (sp12.drop m.length ++ d :: I2)
        :: [] :: (sp12.drop m.length ++ "Format:".toList)
        :: ((lineObr :: lineSum :: lineBulHdr :: lineB1 :: lineB2 :: lineB3 :: lineBrk
            :: lineCbr :: [] :: []).map
              (fun l => if m.isPrefixOf l then l.drop m.length else l)) := by
    rw [show fmtTailPh = [] :: lineFmt :: lineObr :: lineSum :: lineBulHdr :: lineB1 :: lineB2
        :: lineB3 :: lineBrk :: lineCbr :: [] :: [] from rfl]
    simp only [List.map_cons]
    rw [show lineInstrHdr = sp12 ++ "Instruction:".toList from rfl,
      show lineFmt = sp12 ++ "Format:".toList from rfl]
    rw [hpre12 "Instruction:".toList, hpre12 (d :: I2), hpre12 "Format:".toList]
    rw [hdropap "Instruction:".toList, hdropap (d :: I2), hdropap "Format:".toList]
    have hnil : (if m.isPrefixOf ([] : List Char) then ([] : List Char).drop m.length else [])
        = ([] : List Char) := by
      split <;> simp
    rw [hnil]
    simp only [List.map_cons, List.map_nil, if_true]
  rw [← hL1, List.map_append, hmapstr]
  generalize (lineObr :: lineSum :: lineBulHdr :: lineB1 :: lineB2 :: lineB3 :: lineBrk
      :: lineCbr :: [] :: []).map (fun l => if m.isPrefixOf l then l.drop m.length else l)
    = restMap
  generalize (A.map (fun l => if wsOnlyLine l then [] else l)).map
      (fun l => if m.isPrefixOf l then l.drop m.length else l) = A2
  generalize sp12.drop m.length = wsd
  obtain ⟨P, hP⟩ := joinNl_two (wsd ++ "Instruction:".toList) (wsd ++ d :: I2)
    ([] :: (wsd ++ "Format:".toList) :: restMap) (by simp) A2
  rw [hP]
  unfold pyStrip
  have hfrontAny : (P ++ (wsd ++ "Instruction:".toList)).any (fun c => !isPyWs c) = true := by
    rw [List.any_eq_true]
    exact ⟨'I', List.mem_append_right _ (List.mem_append_right _ (by decide)), by decide⟩
  rw [show P ++ ((wsd ++ "Instruction:".toList) ++ '\n' :: ((wsd ++ d :: I2) ++ '\n'
        :: joinNl ([] :: (wsd ++ "Format:".toList) :: restMap)))
      = (P ++ (wsd ++ "Instruction:".toList)) ++ ('\n' :: ((wsd ++ d :: I2) ++ '\n'
        :: joinNl ([] :: (wsd ++ "Format:".toList) :: restMap))) from by
    simp [List.append_assoc]]
  rw [dropWhile_append_of_any isPyWs _ _ hfrontAny]
  generalize (P ++ (wsd ++ "Instruction:".toList)).dropWhile isPyWs = P2
  rw [show P2 ++ ('\n' :: ((wsd ++ d :: I2) ++ '\n'
        :: joinNl ([] :: (wsd ++ "Format:".toList) :: restMap)))
      = (P2 ++ ('\n' :: (wsd ++ d :: I2))) ++ ('\n'
        :: joinNl ([] :: (wsd ++ "Format:".toList) :: restMap)) from by
    simp [List.append_assoc]]
  have hbackAny : (('\n' :: joinNl ([] :: (wsd ++ "Format:".toList) :: restMap)).any
      (fun c => !isPyWs c)) = true := by
    rw [List.any_eq_true]
    refine ⟨'F', List.mem_cons_of_mem _ ?_, by decide⟩
    exact mem_joinNl 'F' (wsd ++ "Format:".toList) _ (by simp)
      (List.mem_append_right _ (by decide))
  rw [back_drop_of_any _ _ hbackAny]
  exact infix_mid P2 (d :: I2) wsd _

/-- C2 (amended): for every configuration entry, the prompt contains the
entry's instruction text verbatim for EVERY résumé text; and for every
single-line résumé text (no newline character) that does not begin with a
space or tab, the prompt also contains the résumé text verbatim.  (The
résumé half fails for multi-line résumé texts: the common-margin stripping
of dedent can alter an interior résumé line, which the counterexample
exhibits.) -/
theorem C2_amended_thm : ∀ entry ∈ LENSES,
    (∀ resume : List Char, entry.2.instruction <:+: buildPrompt resume entry.2.instruction)
    ∧ ∀ (c : Char) (R2 : List Char), isSpTab c = false → ¬ '\n' ∈ (c :: R2) →
      (c :: R2) <:+: buildPrompt (c :: R2) entry.2.instruction
      ∧ entry.2.instruction <:+: buildPrompt (c :: R2) entry.2.instruction := by
  intro entry hentry
  have key : ∀ instr : List Char, (∃ d I2, instr = d :: I2 ∧ isSpTab d = false) →
      ¬ '\n' ∈ instr →
      (∀ resume : List Char, instr <:+: buildPrompt resume instr)
      ∧ ∀ (c : Char) (R2 : List Char), isSpTab c = false → ¬ '\n' ∈ (c :: R2) →
        (c :: R2) <:+: buildPrompt (c :: R2) instr ∧ instr <:+: buildPrompt (c :: R2) instr := by
    intro instr h2 hnI
    refine ⟨fun resume => instr_in_prompt resume instr hnI h2, ?_⟩
    intro c R2 hc hn
    rw [buildPrompt_split (c :: R2) instr ⟨c, R2, rfl, hc⟩ h2 hn hnI]
    constructor
    · exact ⟨promptHeadC, promptMidC ++ (instr ++ promptTailC), by simp [List.append_assoc]⟩
    · exact ⟨promptHeadC ++ ((c :: R2) ++ promptMidC), promptTailC, by simp [List.append_assoc]⟩
  simp only [LENSES, List.mem_cons, List.not_mem_nil, or_false] at hentry
  rcases hentry with h | h | h <;> subst h
  · exact key _ ⟨'S', _, rfl, by decide⟩ (by decide)
  · exact key _ ⟨'S', _, rfl, by decide⟩ (by decide)
  · exact key _ ⟨'S', _, rfl, by decide⟩ (by decide)

/-- C2 witness: the first entry, with the counterexample's multi-line
résumé for the instruction half and a concrete single-line résumé for the
résumé half. -/
theorem C2_witness :
    (aiPrivacyLens.2.instruction <:+: buildPrompt "x\n y".toList aiPrivacyLens.2.instruction)
    ∧ ('G' :: "eorge Larson resume".toList) <:+:
        buildPrompt ('G' :: "eorge Larson resume".toList) aiPrivacyLens.2.instruction
    ∧ aiPrivacyLens.2.instruction <:+:
        buildPrompt ('G' :: "eorge Larson resume".toList) aiPrivacyLens.2.instruction :=
  ⟨(C2_amended_thm aiPrivacyLens (List.mem_cons_self _ _)).1 "x\n y".toList,
   ((C2_amended_thm aiPrivacyLens (List.mem_cons_self _ _)).2 'G' "eorge Larson resume".toList
      (by decide) (by decide)).1,
   ((C2_amended_thm aiPrivacyLens (List.mem_cons_self _ _)).2 'G' "eorge Larson resume".toList
      (by decide) (by decide)).2⟩

end GenLenses
